import Mathlib

/-!
# Verification of the LibCST codegen state machine and traversal protocol

A shallow embedding of `libcst/nodes/_internal.py`: the incremental
code-generation state (`CodegenState`, `SyntacticCodegenState`) with its
line/column cursor, indent stack and per-node position metadata, and the
cardinality-aware traversal operations (`visit_required`, `visit_optional`,
`visit_sentinel`, `visit_iterable`/`visit_sequence`).

Strings are modelled as `List Char`; Python exceptions are modelled with
`Option`/`Except`; node metadata (a per-node mapping from provider to range)
is threaded explicitly as a map from node identities.
-/

set_option autoImplicit false

namespace LibCST

/-- A token of source text, modelled as its character list. -/
abbrev Token := List Char

/-- Embeds `NEWLINE_RE = re.compile(r"\r\n?|\n")`, used via `NEWLINE_RE.split`.
The regex scans left to right; `\r\n` is matched as a single (greedy) newline,
while a lone `\r` or a lone `\n` is also a single newline.  `newlineSplit`
is that split: the list of segments between newline matches. -/
def newlineSplit : Token → List Token
  | [] => [[]]
  | '\r' :: '\n' :: rest => [] :: newlineSplit rest
  | '\r' :: rest => [] :: newlineSplit rest
  | '\n' :: rest => [] :: newlineSplit rest
  | c :: rest =>
    match newlineSplit rest with
    | [] => [[c]]
    | s :: ss => (c :: s) :: ss

/-- The number of newline boundaries in a token, counting `"\r\n"`, `"\r"`
and `"\n"` each as exactly one newline.  Defined directly on the characters,
independently of `newlineSplit`. -/
def countNewlines : Token → Nat
  | [] => 0
  | '\r' :: '\n' :: rest => countNewlines rest + 1
  | '\r' :: rest => countNewlines rest + 1
  | '\n' :: rest => countNewlines rest + 1
  | _ :: rest => countNewlines rest

/-- Position-provider identities: `BasicPositionProvider` and
`SyntacticPositionProvider` from `libcst.metadata.position_provider`. -/
inductive PositionProvider where
  | basic
  | syntactic
deriving DecidableEq

/-- Embeds `CodePosition`: 1-indexed line, 0-indexed column. -/
structure CodePosition where
  line : Nat
  column : Nat
deriving DecidableEq

/-- Embeds `CodeRange`: a start and end position. -/
structure CodeRange where
  start : CodePosition
  «end» : CodePosition
deriving DecidableEq

/-- Embeds `CodeRange.create`, the convenience constructor from two raw pairs. -/
def CodeRange.create (start «end» : Nat × Nat) : CodeRange :=
  ⟨⟨start.1, start.2⟩, ⟨«end».1, «end».2⟩⟩

/-- Lexicographic order on positions: by line, then by column. -/
def CodePosition.le (p q : CodePosition) : Prop :=
  p.line < q.line ∨ (p.line = q.line ∧ p.column ≤ q.column)

instance (p q : CodePosition) : Decidable (p.le q) := by
  unfold CodePosition.le; infer_instance

/-- Embeds `CodegenState`: mutable per-render state (here passed explicitly).
`provider` is set by `__post_init__` (basic) or by the
`SyntacticCodegenState` subclass (syntactic). -/
structure CodegenState where
  default_indent : Token
  default_newline : Token
  provider : PositionProvider
  indent_tokens : List Token
  tokens : List Token
  line : Nat
  column : Nat
deriving DecidableEq

/-- A fresh `CodegenState` as `CodegenState(default_indent, default_newline)`
builds it: empty buffers, cursor `(1, 0)`, basic provider. -/
def makeCodegenState (ind nl : Token) : CodegenState :=
  { default_indent := ind, default_newline := nl, provider := .basic,
    indent_tokens := [], tokens := [], line := 1, column := 0 }

/-- A fresh `SyntacticCodegenState`: identical, except `__post_init__`
sets the syntactic provider. -/
def makeSyntacticCodegenState (ind nl : Token) : CodegenState :=
  { makeCodegenState ind nl with provider := .syntactic }

/-- Embeds `CodegenState.increase_indent`: push a token on the indent stack. -/
def CodegenState.increase_indent (s : CodegenState) (value : Token) : CodegenState :=
  { s with indent_tokens := s.indent_tokens ++ [value] }

/-- Embeds `CodegenState.decrease_indent`: `self.indent_tokens.pop()`.  Python
raises `IndexError` on an empty list, modelled as `none`. -/
def CodegenState.decrease_indent (s : CodegenState) : Option CodegenState :=
  if s.indent_tokens.isEmpty then none
  else some { s with indent_tokens := s.indent_tokens.dropLast }

/-- Embeds `CodegenState._update_position`: recompute line and column from adding
the token `value`. -/
def CodegenState.update_position (s : CodegenState) (value : Token) : CodegenState :=
  let segments := newlineSplit value
  if segments.length = 1 then
    -- contains no newlines: no change to line
    { s with column := s.column + value.length }
  else
    { s with
      line := s.line + (segments.length - 1),
      -- newline resets column back to 0, but a trailing token may shift column
      column := (segments.getLastD []).length }

/-- Embeds `CodegenState.add_token`: append `value` to the output buffer and
advance the cursor through it. -/
def CodegenState.add_token (s : CodegenState) (value : Token) : CodegenState :=
  CodegenState.update_position { s with tokens := s.tokens ++ [value] } value

/-- Embeds `CodegenState.add_indent_tokens`: extend the output buffer with every
indent token (outer to inner), then advance the cursor through each. -/
def CodegenState.add_indent_tokens (s : CodegenState) : CodegenState :=
  s.indent_tokens.foldl CodegenState.update_position
    { s with tokens := s.tokens ++ s.indent_tokens }

/-- Node identities (Python object identity of immutable node instances). -/
abbrev NodeId := Nat

/-- The per-node metadata mappings `node._metadata : provider → CodeRange`,
for all nodes at once, keyed by node identity. -/
def MetadataMap := NodeId → PositionProvider → Option CodeRange

/-- Store `m[node][p] = r` (unconditional dictionary assignment). -/
def setMetadata (m : MetadataMap) (node : NodeId) (p : PositionProvider)
    (r : CodeRange) : MetadataMap :=
  fun n q => if n = node then (if q = p then some r else m n q) else m n q

/-- The empty metadata state: no node has any recorded range. -/
def emptyMetadata : MetadataMap := fun _ _ => none

/-- Embeds `CodegenState.record_position`: associate `position` with `node` under
`self.provider`, but only if no entry for that `(node, provider)` pair
exists (first-write-wins). -/
def CodegenState.record_position (s : CodegenState) (m : MetadataMap)
    (node : NodeId) (position : CodeRange) : MetadataMap :=
  match m node s.provider with
  | some _ => m
  | none => setMetadata m node s.provider position

/-- A rendering error propagating out of an emission body. -/
abbrev CodegenError := Token

/-- The combined state a scoped emission acts on: the codegen state plus
the metadata of all nodes. -/
abbrev RenderState := CodegenState × MetadataMap

/-- The wrapped emission of a `with state.record_syntactic_position(node)`
block: it transforms the render state and either completes normally
(`none`) or raises (`some e`); in both cases the mutations it made up to
that point remain. -/
abbrev EmitBody := RenderState → RenderState × Option CodegenError

/-- Embeds `CodegenState.record_syntactic_position` (base class): a no-op scoped
block; the body runs, nothing is recorded. -/
def CodegenState.record_syntactic_position (_node : NodeId) (body : EmitBody)
    (st : RenderState) : RenderState × Option CodegenError :=
  body st

namespace SyntacticCodegenState

/-- Embeds `SyntacticCodegenState.record_syntactic_position`: snapshot the cursor
as `start` on entry; after the body finishes — normally or by raising
(`try`/`finally`) — snapshot the cursor as `end` and store
`CodeRange(start, end)` for `node` under the syntactic provider. -/
def record_syntactic_position (node : NodeId) (body : EmitBody)
    (st : RenderState) : RenderState × Option CodegenError :=
  let start : CodePosition := ⟨st.1.line, st.1.column⟩
  let res := body st
  let endPos : CodePosition := ⟨res.1.1.line, res.1.1.column⟩
  ((res.1.1, setMetadata res.1.2 node .syntactic ⟨start, endPos⟩), res.2)

end SyntacticCodegenState

/-- The outcome of `node.visit(visitor)`: either the (possibly replaced)
node, or the removal marker `RemovalSentinel.REMOVE`. -/
inductive VisitResult (α : Type) where
  | removal
  | node (a : α)

/-- Embeds `MaybeSentinel`: the "use default / omit" placeholder enum; its only
member is `DEFAULT`. -/
inductive MaybeSentinel where
  | DEFAULT
deriving DecidableEq

/-- The error message raised by `visit_required` on a removal attempt
(a `TypeError` whose text interpolates `type(node).__name__`). -/
def removalErrorMessage (typeName : Token) : Token :=
  "We got a RemovalSentinel while visiting a ".toList ++ typeName ++
    ". This node\x27s parent does not allow it to be removed.".toList

/-- Embeds `visit_required`: visit the node; if removal is attempted, raise a
`TypeError`; otherwise return the result.  `typeName` models
`type(node).__name__`. -/
def visit_required {α : Type} (typeName : α → Token) (_fieldname : Token)
    (node : α) (visitor : α → VisitResult α) : Except Token α :=
  match visitor node with
  | .removal => .error (removalErrorMessage (typeName node))
  | .node n => .ok n

/-- Embeds `visit_optional`: visit the node if it exists; a removed node becomes
`None`. -/
def visit_optional {α : Type} (_fieldname : Token) (node : Option α)
    (visitor : α → VisitResult α) : Option α :=
  match node with
  | none => none
  | some n =>
    match visitor n with
    | .removal => none
    | .node m => some m

/-- Embeds `visit_sentinel`: a `MaybeSentinel` slot is returned as
`MaybeSentinel.DEFAULT` without invoking the visitor; a real node is
visited, a removal collapsing to the placeholder. -/
def visit_sentinel {α : Type} (_fieldname : Token) (node : α ⊕ MaybeSentinel)
    (visitor : α → VisitResult α) : α ⊕ MaybeSentinel :=
  match node with
  | .inr _ => .inr MaybeSentinel.DEFAULT
  | .inl n =>
    match visitor n with
    | .removal => .inr MaybeSentinel.DEFAULT
    | .node m => .inl m

/-- Embeds `visit_iterable`: visit each child in order, yielding the new children
with removed ones dropped. -/
def visit_iterable {α : Type} (fieldname : Token) (children : List α)
    (visitor : α → VisitResult α) : List α :=
  match children with
  | [] => []
  | child :: rest =>
    match visitor child with
    | .removal => visit_iterable fieldname rest visitor
    | .node n => n :: visit_iterable fieldname rest visitor

/-- Embeds `visit_sequence`: `tuple(visit_iterable(fieldname, children, visitor))`. -/
def visit_sequence {α : Type} (fieldname : Token) (children : List α)
    (visitor : α → VisitResult α) : List α :=
  visit_iterable fieldname children visitor


/-- The result of `node.visit(visitor)` as an option: `none` on removal. -/
def VisitResult.toOption {α : Type} : VisitResult α → Option α
  | .removal => none
  | .node a => some a

/-- The live cursor of a codegen state, as a `CodePosition`. -/
def CodegenState.cursor (s : CodegenState) : CodePosition :=
  ⟨s.line, s.column⟩

/-- Emit a list of tokens in order with `add_token`. -/
def emitTokens (ts : List Token) (s : CodegenState) : CodegenState :=
  ts.foldl CodegenState.add_token s

section Lemmas

theorem newlineSplit_ne_nil (v : Token) : newlineSplit v ≠ [] := by
  induction v using newlineSplit.induct <;> simp_all [newlineSplit]

theorem newlineSplit_length (v : Token) :
    (newlineSplit v).length = countNewlines v + 1 := by
  induction v using newlineSplit.induct <;>
    simp_all [newlineSplit, countNewlines]

theorem CodePosition.le_refl (p : CodePosition) : p.le p := by
  simp [CodePosition.le]

theorem CodePosition.le_trans {p q r : CodePosition} (h1 : p.le q)
    (h2 : q.le r) : p.le r := by
  unfold CodePosition.le at h1 h2 ⊢
  omega

theorem update_position_cursor_le (s : CodegenState) (v : Token) :
    s.cursor.le (s.update_position v).cursor := by
  unfold CodegenState.update_position CodegenState.cursor CodePosition.le
  have hlen := newlineSplit_length v
  by_cases h : (newlineSplit v).length = 1 <;> (simp [h]; try omega)

theorem add_token_cursor_le (s : CodegenState) (v : Token) :
    s.cursor.le (s.add_token v).cursor := by
  have := update_position_cursor_le { s with tokens := s.tokens ++ [v] } v
  simpa [CodegenState.add_token, CodegenState.cursor] using this

theorem emitTokens_cursor_le (ts : List Token) (s : CodegenState) :
    s.cursor.le (emitTokens ts s).cursor := by
  induction ts generalizing s with
  | nil => exact CodePosition.le_refl _
  | cons t ts ih =>
    exact CodePosition.le_trans (add_token_cursor_le s t) (ih (s.add_token t))

theorem update_position_line_column (s : CodegenState) (v : Token) :
    ((s.update_position v).tokens = s.tokens ∧
     (s.update_position v).indent_tokens = s.indent_tokens) := by
  unfold CodegenState.update_position
  by_cases h : (newlineSplit v).length = 1 <;> simp [h]

end Lemmas

/-- C1: `add_token(value)` splits `value` on newline boundaries (`"\n"`,
`"\r"`, `"\r\n"` each one newline); with no newline it advances the column
by `length value` and keeps the line; otherwise it advances the line by the
newline count and sets the column to the length of the text after the last
newline.  From `(1, 0)`, emitting `"abc"`, `"de\nfgh"`, `"\r\n"`, `"x"`
yields `(1,3)`, `(2,3)`, `(3,0)`, `(3,1)`. -/
theorem add_token_cursor_spec (s : CodegenState) (value : Token) :
    ((countNewlines value = 0 →
        (s.add_token value).line = s.line ∧
        (s.add_token value).column = s.column + value.length) ∧
     (countNewlines value ≠ 0 →
        (s.add_token value).line = s.line + countNewlines value ∧
        (s.add_token value).column = ((newlineSplit value).getLastD []).length)) ∧
    (let t0 := makeCodegenState "    ".toList "\n".toList
     let t1 := t0.add_token "abc".toList
     let t2 := t1.add_token "de\nfgh".toList
     let t3 := t2.add_token "\r\n".toList
     let t4 := t3.add_token "x".toList
     (t1.line, t1.column) = (1, 3) ∧ (t2.line, t2.column) = (2, 3) ∧
     (t3.line, t3.column) = (3, 0) ∧ (t4.line, t4.column) = (3, 1)) := by
  have hlen := newlineSplit_length value
  constructor
  · constructor
    · intro h0
      unfold CodegenState.add_token CodegenState.update_position
      have h1 : (newlineSplit value).length = 1 := by omega
      simp [h1]
    · intro hne
      unfold CodegenState.add_token CodegenState.update_position
      have h1 : (newlineSplit value).length ≠ 1 := by omega
      simp [h1]
      omega
  · decide

/-- Witness for C1 at a concrete state and token with a newline. -/
theorem add_token_cursor_spec_witness :
    countNewlines "ab\ncd".toList ≠ 0 ∧
    (((makeCodegenState [] []).add_token "ab\ncd".toList).line =
        (makeCodegenState [] []).line + countNewlines "ab\ncd".toList ∧
     ((makeCodegenState [] []).add_token "ab\ncd".toList).column =
        ((newlineSplit "ab\ncd".toList).getLastD []).length) :=
  ⟨by decide,
   (add_token_cursor_spec (makeCodegenState [] []) "ab\ncd".toList).1.2 (by decide)⟩

/-- C10: splitting `"\r\n"` across two `add_token` calls is not
compositional: `add_token("\r")` then `add_token("\n")` advances the line
by 2 (ending at column 0), while the single `add_token("\r\n")` advances it
by 1; both leave the same output buffer text but different cursors. -/
theorem crlf_not_compositional (s : CodegenState) :
    ((s.add_token ['\r']).add_token ['\n']).line = s.line + 2 ∧
    ((s.add_token ['\r']).add_token ['\n']).column = 0 ∧
    (s.add_token ['\r', '\n']).line = s.line + 1 ∧
    (s.add_token ['\r', '\n']).column = 0 ∧
    ((s.add_token ['\r']).add_token ['\n']).tokens.flatten =
      (s.add_token ['\r', '\n']).tokens.flatten ∧
    ((s.add_token ['\r']).add_token ['\n']).line ≠
      (s.add_token ['\r', '\n']).line := by
  unfold CodegenState.add_token CodegenState.update_position
  refine ⟨by simp [newlineSplit], by simp [newlineSplit], by simp [newlineSplit],
    by simp [newlineSplit], ?_, by simp [newlineSplit]⟩
  simp [newlineSplit]

/-- C8: from an empty indent stack, `increase_indent("  ")`,
`add_indent_tokens()`, `decrease_indent()` restores the indent stack to
empty; the indentation appended to the output buffer stays there, and
`decrease_indent` changes the indent stack only, leaving the output buffer
and the cursor untouched. -/
theorem indent_balance (s : CodegenState) (h : s.indent_tokens = []) :
    ∃ s3, ((s.increase_indent "  ".toList).add_indent_tokens).decrease_indent =
        some s3 ∧
      s3.indent_tokens = [] ∧
      ((s.increase_indent "  ".toList).add_indent_tokens).tokens =
        s.tokens ++ ["  ".toList] ∧
      s3.tokens = ((s.increase_indent "  ".toList).add_indent_tokens).tokens ∧
      s3.line = ((s.increase_indent "  ".toList).add_indent_tokens).line ∧
      s3.column = ((s.increase_indent "  ".toList).add_indent_tokens).column ∧
      (∀ t u : CodegenState, t.decrease_indent = some u →
        u.tokens = t.tokens ∧ u.line = t.line ∧ u.column = t.column) := by
  have hs2 : (s.increase_indent "  ".toList).add_indent_tokens =
      { s with indent_tokens := ["  ".toList],
               tokens := s.tokens ++ ["  ".toList],
               column := s.column + 2 } := by
    simp [CodegenState.increase_indent, CodegenState.add_indent_tokens, h,
      CodegenState.update_position, newlineSplit]
  rw [hs2]
  refine ⟨({ s with
             indent_tokens := []
             tokens := s.tokens ++ ["  ".toList]
             column := s.column + 2 } : CodegenState), ?_, rfl, rfl, rfl, rfl, rfl, ?_⟩
  · simp [CodegenState.decrease_indent]
  · intro t u hu
    unfold CodegenState.decrease_indent at hu
    by_cases he : t.indent_tokens.isEmpty <;> simp [he] at hu
    simp [← hu]

/-- Witness for C8 at a fresh codegen state. -/
theorem indent_balance_witness :
    (makeCodegenState "    ".toList "\n".toList).indent_tokens = [] ∧
    ∃ s3, (((makeCodegenState "    ".toList "\n".toList).increase_indent
          "  ".toList).add_indent_tokens).decrease_indent = some s3 ∧
      s3.indent_tokens = [] ∧
      (((makeCodegenState "    ".toList "\n".toList).increase_indent
          "  ".toList).add_indent_tokens).tokens =
        (makeCodegenState "    ".toList "\n".toList).tokens ++ ["  ".toList] ∧
      s3.tokens = (((makeCodegenState "    ".toList "\n".toList).increase_indent
          "  ".toList).add_indent_tokens).tokens ∧
      s3.line = (((makeCodegenState "    ".toList "\n".toList).increase_indent
          "  ".toList).add_indent_tokens).line ∧
      s3.column = (((makeCodegenState "    ".toList "\n".toList).increase_indent
          "  ".toList).add_indent_tokens).column ∧
      (∀ t u : CodegenState, t.decrease_indent = some u →
        u.tokens = t.tokens ∧ u.line = t.line ∧ u.column = t.column) :=
  ⟨rfl, indent_balance (makeCodegenState "    ".toList "\n".toList) rfl⟩

/-- C9: `decrease_indent` on an empty indent stack fails (the `list.pop`
raises); on a non-empty stack it succeeds and removes exactly the most
recently pushed token, and nothing else. -/
theorem decrease_indent_spec (s : CodegenState) :
    (s.indent_tokens = [] → s.decrease_indent = none) ∧
    (∀ pre t, s.indent_tokens = pre ++ [t] →
      s.decrease_indent = some { s with indent_tokens := pre }) := by
  constructor
  · intro h
    simp [CodegenState.decrease_indent, h]
  · intro pre t h
    simp [CodegenState.decrease_indent, h]

/-- Witness for C9: both branches at concrete states. -/
theorem decrease_indent_spec_witness :
    ((makeCodegenState [] []).decrease_indent = none) ∧
    (((makeCodegenState [] []).increase_indent "  ".toList).decrease_indent =
      some { (makeCodegenState [] []).increase_indent "  ".toList with
              indent_tokens := [] }) :=
  ⟨(decrease_indent_spec (makeCodegenState [] [])).1 rfl,
   (decrease_indent_spec ((makeCodegenState [] []).increase_indent
      "  ".toList)).2 [] "  ".toList rfl⟩

/-- C3: `record_position` is first-write-wins: on a node with no recorded
range for the state's provider, recording `P1` then `P2 ≠ P1` leaves the
node associated with `P1`; in general a later recording under an already
recorded `(node, provider)` pair is silently ignored. -/
theorem record_position_first_write_wins (s : CodegenState) (m : MetadataMap)
    (node : NodeId) (P1 P2 : CodeRange) (h0 : m node s.provider = none)
    (_hne : P2 ≠ P1) :
    (s.record_position (s.record_position m node P1) node P2) node s.provider =
      some P1 ∧
    (∀ (mp : MetadataMap) (r P : CodeRange), mp node s.provider = some r →
      s.record_position mp node P = mp) := by
  have hset : (s.record_position m node P1) node s.provider = some P1 := by
    simp [CodegenState.record_position, h0, setMetadata]
  have hignore : ∀ (mp : MetadataMap) (r P : CodeRange),
      mp node s.provider = some r → s.record_position mp node P = mp := by
    intro mp r P hr
    simp [CodegenState.record_position, hr]
  exact ⟨by rw [hignore _ P1 P2 hset]; exact hset, hignore⟩

/-- Witness for C3 at concrete ranges on a fresh metadata map. -/
theorem record_position_first_write_wins_witness :
    (emptyMetadata 0 (makeCodegenState [] []).provider = none) ∧
    (CodeRange.create (2, 0) (2, 5) ≠ CodeRange.create (1, 0) (1, 4)) ∧
    (((makeCodegenState [] []).record_position
        ((makeCodegenState [] []).record_position emptyMetadata 0
          (CodeRange.create (1, 0) (1, 4))) 0
        (CodeRange.create (2, 0) (2, 5))) 0 (makeCodegenState [] []).provider =
      some (CodeRange.create (1, 0) (1, 4))) :=
  ⟨rfl, by decide,
   (record_position_first_write_wins (makeCodegenState [] []) emptyMetadata 0
      (CodeRange.create (1, 0) (1, 4)) (CodeRange.create (2, 0) (2, 5)) rfl
      (by decide)).1⟩

/-- C5: `SyntacticCodegenState.record_syntactic_position(node)` snapshots
the cursor as `start` on entry and, on every exit path of the wrapped body
— normal completion (`(body st).2 = none`) or failure (`some e`) —
snapshots the cursor as `end` and stores `CodeRange(start, end)` for the
node under the syntactic provider, while propagating the body's outcome. -/
theorem record_syntactic_position_scoped (node : NodeId) (body : EmitBody)
    (st : RenderState) :
    (SyntacticCodegenState.record_syntactic_position node body st).1.2 node
        .syntactic =
      some ⟨⟨st.1.line, st.1.column⟩, ⟨(body st).1.1.line, (body st).1.1.column⟩⟩ ∧
    (SyntacticCodegenState.record_syntactic_position node body st).2 =
      (body st).2 ∧
    (SyntacticCodegenState.record_syntactic_position node body st).1.1 =
      (body st).1.1 := by
  refine ⟨?_, rfl, rfl⟩
  simp [SyntacticCodegenState.record_syntactic_position, setMetadata]

/-- C2: `visit_sequence` visits each child in order, drops exactly the
children whose visit requested removal, keeps the relative order of the
rest, and replaces each kept entry by the node the visitor produced.  An
always-remove visitor maps `[a, b, c]` to `[]`; a visitor removing only
`b` maps `[a, b, c]` to `[a, c]`. -/
theorem visit_sequence_removal_reconciliation {α : Type} (f : Token)
    (children : List α) (v : α → VisitResult α) :
    visit_sequence f children v =
      children.filterMap (fun c => (v c).toOption) ∧
    ((∀ c, v c = .removal ∨ v c = .node c) →
      (visit_sequence f children v).Sublist children) ∧
    (∀ w : α → VisitResult α, (∀ x, w x = .removal) →
      ∀ a b c : α, visit_sequence f [a, b, c] w = []) ∧
    (∀ a b c : α, v a = .node a → v b = .removal → v c = .node c →
      visit_sequence f [a, b, c] v = [a, c]) := by
  have hfm : ∀ l : List α, visit_sequence f l v =
      l.filterMap (fun c => (v c).toOption) := by
    intro l
    induction l with
    | nil => rfl
    | cons c rest ih =>
      unfold visit_sequence at ih ⊢
      unfold visit_iterable
      cases hv : v c <;> simp [VisitResult.toOption, hv, ih]
  refine ⟨hfm children, ?_, ?_, ?_⟩
  · intro hkeep
    rw [hfm]
    induction children with
    | nil => simp
    | cons c rest ih =>
      rcases hkeep c with hc | hc
      · simpa [hc, VisitResult.toOption] using ih.cons c
      · simpa [hc, VisitResult.toOption] using ih
  · intro w hw a b c
    simp [visit_sequence, visit_iterable, hw]
  · intro a b c ha hb hc
    simp [visit_sequence, visit_iterable, ha, hb, hc]

/-- Witness for C2: removing only `2` from `[1, 2, 3]` yields `[1, 3]`. -/
theorem visit_sequence_removal_reconciliation_witness :
    visit_sequence "body".toList [1, 2, 3]
      (fun x : Nat => if x = 2 then VisitResult.removal else VisitResult.node x) =
      [1, 3] :=
  (visit_sequence_removal_reconciliation "body".toList [1, 2, 3]
    (fun x : Nat => if x = 2 then VisitResult.removal else VisitResult.node x)).2.2.2
    1 2 3 rfl rfl rfl

/-- C7: `visit_sentinel` on a placeholder slot returns the slot as-is
without consulting the visitor; on a real node it collapses a removal to
the placeholder and otherwise returns the (possibly replaced) node. -/
theorem visit_sentinel_spec {α : Type} (f : Token) (slot : α ⊕ MaybeSentinel)
    (v : α → VisitResult α) :
    (∀ s : MaybeSentinel, slot = .inr s →
      visit_sentinel f slot v = slot ∧
      ∀ w : α → VisitResult α, visit_sentinel f slot w = visit_sentinel f slot v) ∧
    (∀ n : α, slot = .inl n →
      (v n = .removal → visit_sentinel f slot v = .inr MaybeSentinel.DEFAULT) ∧
      (∀ m : α, v n = .node m → visit_sentinel f slot v = .inl m)) := by
  constructor
  · intro s hs
    cases s
    subst hs
    exact ⟨rfl, fun w => rfl⟩
  · intro n hn
    subst hn
    constructor
    · intro hr
      simp [visit_sentinel, hr]
    · intro m hm
      simp [visit_sentinel, hm]

/-- Witness for C7: a placeholder slot is returned unchanged, whatever the
visitor would do. -/
theorem visit_sentinel_spec_witness :
    ((Sum.inr MaybeSentinel.DEFAULT : Nat ⊕ MaybeSentinel) =
      Sum.inr MaybeSentinel.DEFAULT) ∧
    (visit_sentinel "f".toList (Sum.inr MaybeSentinel.DEFAULT : Nat ⊕ MaybeSentinel)
        (fun x => VisitResult.node x) =
      Sum.inr MaybeSentinel.DEFAULT ∧
     ∀ w : Nat → VisitResult Nat,
       visit_sentinel "f".toList (Sum.inr MaybeSentinel.DEFAULT) w =
       visit_sentinel "f".toList (Sum.inr MaybeSentinel.DEFAULT)
         (fun x => VisitResult.node x)) :=
  ⟨rfl,
   (visit_sentinel_spec "f".toList (Sum.inr MaybeSentinel.DEFAULT)
      (fun x => VisitResult.node x)).1 MaybeSentinel.DEFAULT rfl⟩

set_option maxRecDepth 20000 in
/-- C4 (counterexample): a removal on a required field raises the usage
error, but the message names only the node type — the field name (here
`"zqj"`) does not occur in it. -/
theorem visit_required_error_omits_field :
    visit_required (fun _ : Nat => "Integer".toList) "zqj".toList 0
      (fun _ => VisitResult.removal) =
      Except.error (removalErrorMessage "Integer".toList) ∧
    ¬ "zqj".toList <:+: removalErrorMessage "Integer".toList :=
  ⟨rfl, by decide⟩

/-- C4 (amended): `visit_required` fails exactly when the visit requests
removal; the error names the node type (not the field); otherwise the
(possibly replaced) node is returned. -/
theorem visit_required_spec {α : Type} (tn : α → Token) (fn : Token)
    (n : α) (v : α → VisitResult α) :
    ((∃ m, visit_required tn fn n v = .error m) ↔ v n = .removal) ∧
    (v n = .removal →
      visit_required tn fn n v = .error (removalErrorMessage (tn n)) ∧
      tn n <:+: removalErrorMessage (tn n)) ∧
    (∀ m : α, v n = .node m → visit_required tn fn n v = .ok m) := by
  refine ⟨⟨?_, ?_⟩, ?_, ?_⟩
  · rintro ⟨m, hm⟩
    cases hv : v n
    · rfl
    · simp [visit_required, hv] at hm
  · intro hv
    exact ⟨removalErrorMessage (tn n), by simp [visit_required, hv]⟩
  · intro hv
    refine ⟨by simp [visit_required, hv], ?_⟩
    exact ⟨"We got a RemovalSentinel while visiting a ".toList,
      ". This node\x27s parent does not allow it to be removed.".toList, rfl⟩
  · intro m hm
    simp [visit_required, hm]

/-- Witness for C4 (amended) at a removal on a concrete node. -/
theorem visit_required_spec_witness :
    visit_required (fun _ : Nat => "Name".toList) "f".toList 0
        (fun _ => VisitResult.removal) =
      Except.error (removalErrorMessage "Name".toList) ∧
    "Name".toList <:+: removalErrorMessage "Name".toList :=
  (visit_required_spec (fun _ : Nat => "Name".toList) "f".toList 0
    (fun _ => VisitResult.removal)).2.1 rfl

/-- A parent node's emission under the syntactic strategy: inside the
parent's `record_syntactic_position` scope it emits `pre`, renders a child
that emits `mid` inside its own `record_syntactic_position` scope, and
then emits `post`. -/
def nestedRender (parent child : NodeId) (pre mid post : List Token)
    (st : RenderState) : RenderState × Option CodegenError :=
  SyntacticCodegenState.record_syntactic_position parent
    (fun s0 =>
      let s1 : RenderState := (emitTokens pre s0.1, s0.2)
      let s2 := SyntacticCodegenState.record_syntactic_position child
        (fun t => ((emitTokens mid t.1, t.2), none)) s1
      ((emitTokens post s2.1.1, s2.1.2), s2.2))
    st

/-- C6: under the syntactic strategy the cursor never moves backwards
across token emissions (lexicographically by line then column), and so a
parent whose recorded emission encloses a child's recorded emission gets a
range that contains the child's:
`range(parent).start ≤ range(child).start` and
`range(child).end ≤ range(parent).end`. -/
theorem syntactic_range_nesting (parent child : NodeId) (h : parent ≠ child)
    (pre mid post : List Token) (st : RenderState) :
    (∀ (s : CodegenState) (v : Token), s.cursor.le (s.add_token v).cursor) ∧
    ∃ pr cr,
      (nestedRender parent child pre mid post st).1.2 parent
          PositionProvider.syntactic = some pr ∧
      (nestedRender parent child pre mid post st).1.2 child
          PositionProvider.syntactic = some cr ∧
      pr.start.le cr.start ∧ cr.«end».le pr.«end» := by
  have hcp : child ≠ parent := fun hc => h hc.symm
  refine ⟨add_token_cursor_le, ?_⟩
  refine ⟨⟨st.1.cursor, (emitTokens post (emitTokens mid (emitTokens pre st.1))).cursor⟩,
          ⟨(emitTokens pre st.1).cursor, (emitTokens mid (emitTokens pre st.1)).cursor⟩,
          ?_, ?_, ?_, ?_⟩
  · simp [nestedRender, SyntacticCodegenState.record_syntactic_position,
      setMetadata, CodegenState.cursor]
  · simp [nestedRender, SyntacticCodegenState.record_syntactic_position,
      setMetadata, hcp, CodegenState.cursor]
  · exact emitTokens_cursor_le pre st.1
  · exact emitTokens_cursor_le post (emitTokens mid (emitTokens pre st.1))

/-- Witness for C6 at concrete nodes, emissions and a fresh state. -/
theorem syntactic_range_nesting_witness :
    (0 : NodeId) ≠ 1 ∧
    ((∀ (s : CodegenState) (v : Token), s.cursor.le (s.add_token v).cursor) ∧
     ∃ pr cr,
       (nestedRender 0 1 [['d', 'e', 'f']] [['\n'], ['x']] [['y']]
           (makeSyntacticCodegenState [] [], emptyMetadata)).1.2 0
           PositionProvider.syntactic = some pr ∧
       (nestedRender 0 1 [['d', 'e', 'f']] [['\n'], ['x']] [['y']]
           (makeSyntacticCodegenState [] [], emptyMetadata)).1.2 1
           PositionProvider.syntactic = some cr ∧
       pr.start.le cr.start ∧ cr.«end».le pr.«end») :=
  ⟨by decide,
   syntactic_range_nesting 0 1 (by decide) [['d', 'e', 'f']] [['\n'], ['x']] [['y']]
     (makeSyntacticCodegenState [] [], emptyMetadata)⟩

end LibCST
